import Mathlib

set_option linter.unusedVariables false

/- Verification development for the Reinhard command framework.

   Shallow embedding of the command routing engine
   (src/reinhard/util/command_client.py) and of the resilient-call error
   manager (src/reinhard/util/rest_manager.py).  Python strings are Lean
   `String`s handled character-wise, Python ints are `Nat`, float second
   counts (retry-after hints, backoff delays) are `ℚ`, raised exceptions
   are explicit `Except`/sum values, and the mutable `Context` object is
   threaded through functions explicitly. -/

/-- Python `str.startswith`: `startswith content p` is true when the string
`p` is a literal character prefix of `content` (no regex, no case folding). -/
def startswith (content p : String) : Bool :=
  List.isPrefixOf p.data content.data

/-- Exceptions that a check predicate may raise.  `permissionError` models
the `PermissionError` class of command_client.py (which derives from
`hikari.errors.HikariError`, itself a subclass of Python's `Exception`);
`otherError` models any other `Exception` subclass. -/
inductive ChkExn where
  | permissionError
  | otherError (tag : Nat)
deriving DecidableEq, Repr

/-- Outcome of evaluating one check predicate on a context: it either
returns a boolean or raises an exception. -/
inductive CheckResult where
  | ok (b : Bool)
  | exc (e : ChkExn)
deriving DecidableEq, Repr

/-- The per-invocation `Context` object.  `command` and `triggering_name`
model the attributes written by `Context.set_command` and
`Context.set_command_trigger`; they are unset (`none`) until assigned.
The bound command is recorded by its name, mirroring the object reference
stored by the Python code. -/
structure Context where
  content : String
  trigger : String
  command : Option String
  triggering_name : Option String
deriving DecidableEq, Repr

/-- Context.set_command: `self.command = command_obj`. -/
def Context.set_command (ctx : Context) (name : String) : Context :=
  { ctx with command := some name }

/-- Context.set_command_trigger: `self.triggering_name = trigger`. -/
def Context.set_command_trigger (ctx : Context) (t : String) : Context :=
  { ctx with triggering_name := some t }

/-- Context.prune_content: `self.content = self.content[length:]`
(character-indexed slicing, as in Python). -/
def Context.prune_content (ctx : Context) (length : Nat) : Context :=
  { ctx with content := String.mk (ctx.content.data.drop length) }

/-- One entry of a command's `_checks` list: either the built-in
`check_prefix_from_context` predicate installed by `Command.__init__`, or a
further predicate added through `register_check`.  The predicates written
in this repository read the context without reassigning its fields, so
user-supplied predicates are modelled as pure functions of the context. -/
inductive Chk where
  | prefixCheck
  | user (f : Context → CheckResult)

/-- The `Command` data: trigger strings (first one canonical), required
access level, and the ordered `_checks` list.  `name` models
`self._func.__name__`. -/
structure Command where
  name : String
  level : Nat
  triggers : List String
  checks : List Chk

/-- Loop body of `Command.check_prefix` and of the generic first-literal-
prefix scan: return the first string in the list that is a literal prefix
of `content`, or `none` (Python's implicit `None`) when no entry matches. -/
def firstStartingWith (content : String) : List String → Option String
  | [] => none
  | p :: ps => if startswith content p then some p else firstStartingWith content ps

/-- Command.check_prefix: iterate `self.triggers`, returning the first
trigger with `content.startswith(trigger)`; falls off the end returning
`None` otherwise. -/
def Command.check_prefix (c : Command) (content : String) : Option String :=
  firstStartingWith content c.triggers

/-- Loop of `Command.check_prefix_from_context`: for each trigger, if
`ctx.content.startswith(trigger)` then `ctx.set_command_trigger(trigger)`
and return `True`; return `False` after the loop. -/
def cpfcGo : List String → Context → CheckResult × Context
  | [], ctx => (.ok false, ctx)
  | t :: ts, ctx =>
    if startswith ctx.content t then (.ok true, Context.set_command_trigger ctx t)
    else cpfcGo ts ctx

/-- Command.check_prefix_from_context. -/
def check_prefix_from_context (c : Command) (ctx : Context) : CheckResult × Context :=
  cpfcGo c.triggers ctx

/-- Evaluate one entry of the `_checks` list on the context, returning its
outcome together with the (possibly updated) context. -/
def runCheck (c : Command) (chk : Chk) (ctx : Context) : CheckResult × Context :=
  match chk with
  | .prefixCheck => check_prefix_from_context c ctx
  | .user f => (f ctx, ctx)

/-- The `except Exception` clause of `Command.check` catches a raised
exception exactly when it is an instance of Python's `Exception`.  Both
modelled exception kinds are `Exception` subclasses — in particular
command_client.py's `PermissionError` derives from `hikari.errors.HikariError`,
which derives from `Exception` — so this is constantly true. -/
def isException : ChkExn → Bool
  | _ => true

/-- The `for check in self._checks` loop of `Command.check`, with `result`
the accumulator variable.  A predicate returning a value lands in the
`else:` clause, which breaks out of the loop when the value is falsy; a
predicate raising an `Exception` sets `result = False` and (since the
`else:` clause is skipped) continues with the next predicate.  An
exception not caught by `except Exception` would propagate (`.error`). -/
def checkLoop (c : Command) : List Chk → Bool → Context → Except ChkExn (Bool × Context)
  | [], result, ctx => .ok (result, ctx)
  | chk :: rest, _, ctx =>
    match runCheck c chk ctx with
    | (.ok b, ctx') => if b then checkLoop c rest b ctx' else .ok (false, ctx')
    | (.exc e, ctx') =>
      if isException e then checkLoop c rest false ctx' else .error e

/-- Command.check: `result = False; ctx.set_command(self); for check in
self._checks: ...; return result`. -/
def Command.check (c : Command) (ctx : Context) : Except ChkExn (Bool × Context) :=
  checkLoop c c.checks false (Context.set_command ctx c.name)

/- ------------------------------------------------------------------ -/
/- CommandCluster                                                      -/
/- ------------------------------------------------------------------ -/

/-- A command cluster.  `members` are the `AbstractCommand`-typed class
attributes that `inspect.getmembers` discovers (in attribute-name order);
`cluster_commands` is the mutable list the commands are loaded into by
`bind_commands`.  Event listeners, logging and the handler rebinding done
by `bind_cluster` carry no semantics used by the routing logic and are
omitted. -/
structure Cluster where
  members : List Command
  cluster_commands : List Command

/-- Stable insertion of a command into a list sorted descending by `name`,
placing it after existing entries with an equal or larger name.  Together
with the left fold below this reproduces Python's stable
`list.sort(key=lambda comm: comm.name, reverse=True)`. -/
def insertDesc (c : Command) : List Command → List Command
  | [] => [c]
  | d :: ds => if d.name < c.name then c :: d :: ds else d :: insertDesc c ds

/-- The `cluster_commands.sort(key=lambda comm: comm.name, reverse=True)`
call at the end of `bind_commands`. -/
def sortByNameDesc (l : List Command) : List Command :=
  List.foldl (fun acc c => insertDesc c acc) [] l

/-- CommandCluster.bind_commands.  `assertions.assert_that(not
self.cluster_commands, ...)` raises `ValueError` with the quoted message
exactly when `cluster_commands` is non-empty; otherwise every discovered
member is bound and appended (duplicate triggers are only logged, never
rejected) and the list is sorted descending by canonical name.  The raised
error is modelled with `Except.error`. -/
def bind_commands (cl : Cluster) : Except String Cluster :=
  if cl.cluster_commands.isEmpty then
    .ok { cl with cluster_commands := sortByNameDesc cl.members }
  else
    .error "Cannot bind commands in cluster when commands have already been binded."

/-- Loop of `CommandCluster.get_command_from_name`: `if prefix :=
command_obj.check_prefix(content)` yields the pair only when the returned
trigger is truthy, i.e. neither `None` nor the empty string. -/
def gcfnGo (content : String) : List Command → List (Command × String)
  | [] => []
  | c :: cs =>
    match Command.check_prefix c content with
    | some p => if p.isEmpty then gcfnGo content cs else (c, p) :: gcfnGo content cs
    | none => gcfnGo content cs

/-- CommandCluster.get_command_from_name, with the lazily yielded pairs
collected into a list in yield order. -/
def get_command_from_name (cl : Cluster) (content : String) : List (Command × String) :=
  gcfnGo content cl.cluster_commands

/- ------------------------------------------------------------------ -/
/- CommandClient                                                       -/
/- ------------------------------------------------------------------ -/

/-- The fields of `CommandClientOptions` consumed by routing: the
user-id → access-level mapping and the global prefix list. -/
structure ClientOptions where
  access_levels : List (Nat × Nat)
  prefixes : List String

/-- Python `dict.get(key, 0)` over the association list modelling
`access_levels`. -/
def lookupLevel (levels : List (Nat × Nat)) (userId : Nat) : Nat :=
  match levels.find? (fun kv => kv.fst = userId) with
  | some kv => kv.snd
  | none => 0

/-- An inbound message: author id, optional guild id, and content. -/
structure Message where
  authorId : Nat
  guildId : Option Nat
  content : String
deriving DecidableEq, Repr

/-- The `CommandClient`.  `guildPrefixResolver` models the optional
`get_guild_prefix` attribute (`none` when `hasattr(self,
"get_guild_prefix")` is false); `cluster_commands` are the root cluster's
own commands and `clusters` holds each registered sub-cluster's command
list in registration order. -/
structure CommandClient where
  options : ClientOptions
  guildPrefixResolver : Option (Nat → Option String)
  cluster_commands : List Command
  clusters : List (List Command)

/-- CommandClient.access_check:
`self._client_options.access_levels.get(message.author.id, 0) >=
command_obj.level`. -/
def access_check (cl : CommandClient) (c : Command) (msg : Message) : Bool :=
  decide (c.level ≤ lookupLevel cl.options.access_levels msg.authorId)

/-- CommandClient._get_prefixes: global prefixes only when the message has
no guild or no `get_guild_prefix` attribute exists; otherwise the resolved
guild prefix is prepended when it is truthy (`if guild_prefix else
self._client_options.prefixes` — Python's `None` and `""` are both
falsy). -/
def get_prefixes (cl : CommandClient) (guild : Option Nat) : List String :=
  match guild, cl.guildPrefixResolver with
  | none, _ => cl.options.prefixes
  | some _, none => cl.options.prefixes
  | some g, some resolve =>
    match resolve g with
    | some gp => if gp.isEmpty then cl.options.prefixes else gp :: cl.options.prefixes
    | none => cl.options.prefixes

/-- CommandClient.check_prefix: scan `await self._get_prefixes(
message.guild_id)` in order, returning the first prefix with
`message.content.startswith(prefix)`, else `None`. -/
def CommandClient.check_prefix (cl : CommandClient) (msg : Message) : Option String :=
  firstStartingWith msg.content (get_prefixes cl msg.guildId)

/-- The cluster traversal order of `get_global_command_from_context`:
`(self, *self.clusters.values())`, each contributing its
`cluster_commands` in stored order. -/
def allCommands (cl : CommandClient) : List Command :=
  cl.cluster_commands ++ cl.clusters.flatten

/-- The fused loop of `on_message_create` over
`get_global_command_from_context`: run each command's `check` on the
shared context (whose mutations persist from one candidate to the next);
a command whose `check` passes is yielded and then submitted to
`access_check`, breaking on the first success; on failure the traversal
continues.  Returns the selected command with the context as left by its
`check`, `none` when the traversal exhausts, or the exception should a
check ever propagate one. -/
def findExecutable (cl : CommandClient) (msg : Message) :
    List Command → Context → Except ChkExn (Option (Command × Context))
  | [], _ => .ok none
  | c :: cs, ctx =>
    match Command.check c ctx with
    | .error e => .error e
    | .ok (b, ctx') =>
      if b then
        if access_check cl c msg then .ok (some (c, ctx'))
        else findExecutable cl msg cs ctx'
      else findExecutable cl msg cs ctx'

/-- Result of one `on_message_create` dispatch.  `noPrefixFound` is the
early `return` when no (truthy) prefix matched; `noCommandExecuted` the
silent `return` when no candidate passed the access check; `executed`
carries the chosen command and the pruned context handed to `execute`;
`raised`/`attrError` model the exception paths (a propagating check
exception, and the `AttributeError` were `ctx.triggering_name` never
assigned). -/
inductive DispatchResult where
  | noPrefixFound
  | noCommandExecuted
  | raised (e : ChkExn)
  | attrError
  | executed (c : Command) (ctx : Context)

/-- CommandClient.on_message_create: resolve the prefix (mentions are
`None` in the source, so `if prefix or mention` drops the message when the
prefix is `None` or empty), build the context on the content with the
prefix stripped, select the first accessible candidate, then
`ctx.prune_content(len(ctx.triggering_name) + 1)` and execute it. -/
def on_message_create (cl : CommandClient) (msg : Message) : DispatchResult :=
  match CommandClient.check_prefix cl msg with
  | none => .noPrefixFound
  | some p =>
    if p.isEmpty then .noPrefixFound
    else
      match findExecutable cl msg (allCommands cl)
          { content := String.mk (msg.content.data.drop p.data.length)
            trigger := p
            command := none
            triggering_name := none } with
      | .error e => .raised e
      | .ok none => .noCommandExecuted
      | .ok (some (c, ctxF)) =>
        match ctxF.triggering_name with
        | none => .attrError
        | some t => .executed c (Context.prune_content ctxF (t.data.length + 1))

/- ------------------------------------------------------------------ -/
/- rest_manager: HikariErrorManager over the yuyo backoff machinery    -/
/- ------------------------------------------------------------------ -/

/-- Exceptions classified by `HikariErrorManager`:
`hikari.InternalServerError` (a 5xx), `hikari.RateLimitedError` carrying
its float `retry_after` hint (modelled as `ℚ`), and any other exception
kind identified by a numeric tag. -/
inductive Exc where
  | internalServerError
  | rateLimited (retryAfter : ℚ)
  | otherExc (tag : Nat)
deriving DecidableEq, Repr

/-- Exception kinds, as matched by an error-manager rule's tuple of
exception types. -/
inductive ExcType where
  | internalServerErrorType
  | rateLimitedType
  | otherType (tag : Nat)
deriving DecidableEq, Repr

/-- The type of an exception instance. -/
def Exc.excType : Exc → ExcType
  | .internalServerError => .internalServerErrorType
  | .rateLimited _ => .rateLimitedType
  | .otherExc tag => .otherType tag

/-- Modelled from the spec: the yuyo `backoff.Backoff` iterator is an
external dependency whose code is not under src/.  Spec section 4.6:
state is the attempt count against a maximum, a pending
`setNextBackoff` override used for the next sleep only, and a
`finish()`ed flag; the delay grows as a configured monotone function of
the attempt count (`delayFn`, configuration rather than semantics). -/
structure Backoff where
  maxRetries : Nat
  attempt : Nat
  nextOverride : Option ℚ
  finished : Bool
  delayFn : Nat → ℚ

/-- Modelled from the spec: one step of the backoff iteration.  It
produces at most `maxRetries` permits (inclusive of the first attempt),
none once finished; the first permit is immediate (zero sleep) and each
later permit is preceded by a sleep of the override, if one is pending,
or else of the configured delay.  Returns the slept delay and the
successor state. -/
def Backoff.next (b : Backoff) : Option (ℚ × Backoff) :=
  if b.finished then none
  else if b.maxRetries ≤ b.attempt then none
  else if b.attempt = 0 then some (0, { b with attempt := 1 })
  else
    some (b.nextOverride.getD (b.delayFn b.attempt),
          { b with attempt := b.attempt + 1, nextOverride := none })

/-- Modelled from the spec: `setNextBackoff(seconds)` overrides the delay
used for the next sleep only. -/
def Backoff.set_next_backoff (b : Backoff) (d : ℚ) : Backoff :=
  { b with nextOverride := some d }

/-- Modelled from the spec: `finish()` ends the sequence immediately
regardless of remaining attempts. -/
def Backoff.finish (b : Backoff) : Backoff :=
  { b with finished := true }

/-- Modelled from the spec: `reset()` restores the attempt count to zero
for reuse across independent calls. -/
def Backoff.reset (b : Backoff) : Backoff :=
  { b with attempt := 0, nextOverride := none, finished := false }

/-- The three rule callbacks that `HikariErrorManager.clear_rules`
registers (src/reinhard/util/rest_manager.py). -/
inductive RuleCb where
  | onInternalServerError
  | onRateLimited
  | onBreakOn
deriving DecidableEq, Repr

/-- Run one rule callback on the matched exception.  The boolean is the
callback's return value; per the error-manager contract below, a truthy
return re-raises the exception and a falsy return suppresses it.
`_on_internal_server_error` returns `False`; `_on_rate_limited_error`
returns `True` when `exception.retry_after > 10` and otherwise calls
`set_next_backoff(exception.retry_after)` and returns `False`;
`_on_break_on` calls `finish()` and returns `False`.  (The rate-limit
callback is only ever invoked on a rate-limited exception; the catch-all
arm is unreachable.) -/
def runCb : RuleCb → Exc → Backoff → Bool × Backoff
  | .onInternalServerError, _, b => (false, b)
  | .onRateLimited, e, b =>
    match e with
    | .rateLimited r =>
      if 10 < r then (true, b) else (false, Backoff.set_next_backoff b r)
    | _ => (false, b)
  | .onBreakOn, _, b => (false, Backoff.finish b)

/-- HikariErrorManager.clear_rules: the ordered rule list — first
`(hikari.InternalServerError,)`, then `(hikari.RateLimitedError,)`, then,
only when the caller-supplied `break_on` iterable is non-empty, the
`break_on` tuple itself. -/
def hikariRules (breakOn : List ExcType) : List (List ExcType × RuleCb) :=
  [([ExcType.internalServerErrorType], RuleCb.onInternalServerError),
   ([ExcType.rateLimitedType], RuleCb.onRateLimited)] ++
    (if breakOn.isEmpty then [] else [(breakOn, RuleCb.onBreakOn)])

/-- Modelled from the spec: the yuyo `backoff.ErrorManager.__exit__`
dispatch, whose code is not under src/.  Spec section 3: rules are
evaluated in registration order, the first rule whose exception-kind set
matches wins, and an exception matching no rule propagates (`none`).
The meaning of a matched callback's boolean is forced by the
`try_respond` loop in src (`async for _ in backoff: with self:
respond; break`): a Python context manager can only suppress the
exception — whereupon the loop proceeds to the next backoff permit — or
re-raise it, and the spec's break-on and small-rate-limit outcomes
("force-finished and suppressed, not propagated" / "retries after the
hinted delay") pin a falsy return to suppression, so a truthy return
re-raises.  Early abort is expressed through `Backoff.finish`, not
through a return value. -/
def applyRules : List (List ExcType × RuleCb) → Exc → Backoff → Option (Bool × Backoff)
  | [], _, _ => none
  | (types, cb) :: rest, e, b =>
    if Exc.excType e ∈ types then some (runCb cb e b) else applyRules rest e b

/-- Result of one `try_respond` call: the guarded action succeeded on the
n-th attempt (after the listed sleeps, first one `0`), or the backoff
iterator ran out / was finished and the call returned with the last
failure suppressed, or a classified-as-raise or unmatched exception
propagated. -/
inductive RespondOutcome where
  | success (attempts : Nat) (delays : List ℚ)
  | gaveUp (attempts : Nat) (delays : List ℚ)
  | propagated (e : Exc) (attempts : Nat) (delays : List ℚ)
deriving DecidableEq, Repr

/-- The `async for _ in self._backoff_handler: with self: await
ctx.respond(...); break` loop of `HikariErrorManager.try_respond`.  The
guarded action is given as the outcome of each attempt (`none` = the
respond call succeeds, `some e` = it raises `e`).  `fuel` is a structural
bound on the number of iterations; it is set to `maxRetries`, which the
permit count never exceeds, so the `Backoff.next = none` test below is
what actually ends the loop. -/
def tryRespondGo (breakOn : List ExcType) (action : Nat → Option Exc) :
    Nat → Nat → List ℚ → Backoff → RespondOutcome
  | 0, count, ds, _ => .gaveUp count ds.reverse
  | fuel + 1, count, ds, b =>
    match Backoff.next b with
    | none => .gaveUp count ds.reverse
    | some (delay, b') =>
      match action count with
      | none => .success (count + 1) (delay :: ds).reverse
      | some e =>
        match applyRules (hikariRules breakOn) e b' with
        | none => .propagated e (count + 1) (delay :: ds).reverse
        | some (reraise, b'') =>
          if reraise then .propagated e (count + 1) (delay :: ds).reverse
          else tryRespondGo breakOn action fuel (count + 1) (delay :: ds) b''

/-- HikariErrorManager.try_respond: `self._backoff_handler.reset()`, then
the retry loop above. -/
def try_respond (breakOn : List ExcType) (b : Backoff) (action : Nat → Option Exc) :
    RespondOutcome :=
  tryRespondGo breakOn action b.maxRetries 0 [] (Backoff.reset b)

/- ------------------------------------------------------------------ -/
/- Specification-side definitions used to state the claims            -/
/- ------------------------------------------------------------------ -/

/-- The outcomes of the check predicates actually evaluated by one
`Command.check` run, in evaluation order: evaluation stops after a
predicate that returns `False` (nothing later is evaluated) but continues
past a raising predicate. -/
def checkTrace (c : Command) : List Chk → Context → List CheckResult
  | [], _ => []
  | chk :: rest, ctx =>
    match runCheck c chk ctx with
    | (.ok b, ctx') =>
      if b then CheckResult.ok true :: checkTrace c rest ctx' else [CheckResult.ok false]
    | (.exc e, ctx') => CheckResult.exc e :: checkTrace c rest ctx'

/-- The boolean `Command.check` derives from an evaluated-outcome trace:
the `result` variable after the loop, i.e. the default for an empty trace
and otherwise the value of the last evaluated outcome, a raise counting
as `False`. -/
def traceResult (dflt : Bool) (tr : List CheckResult) : Bool :=
  match tr.getLast? with
  | none => dflt
  | some (.ok b) => b
  | some (.exc _) => false

/-- The claim's reading of `Command.check`: every registered predicate,
evaluated in order on the threaded context, produced `True` (a raise
counting as a false result). -/
def allChecksTrue (c : Command) : List Chk → Context → Bool
  | [], _ => true
  | chk :: rest, ctx =>
    match runCheck c chk ctx with
    | (.ok true, ctx') => allChecksTrue c rest ctx'
    | _ => false

/-- The dispatch traversal skipped every command of the list: each one,
checked on the threaded context, either failed its `check` or failed the
access check, ending with the stated context. -/
def skippedTo (cl : CommandClient) (msg : Message) :
    List Command → Context → Context → Prop
  | [], ctx, ctxEnd => ctx = ctxEnd
  | c :: cs, ctx, ctxEnd =>
    ∃ b ctx', Command.check c ctx = .ok (b, ctx') ∧
      (b = false ∨ access_check cl c msg = false) ∧ skippedTo cl msg cs ctx' ctxEnd

/- ------------------------------------------------------------------ -/
/- Concrete instances used by counterexamples and witnesses           -/
/- ------------------------------------------------------------------ -/

/-- A fresh context over content "x". -/
def baseCtx : Context :=
  { content := "x", trigger := "!", command := none, triggering_name := none }

/-- A fresh context over content "abc". -/
def ctxAb : Context :=
  { content := "abc", trigger := "!", command := none, triggering_name := none }

/-- A check predicate that raises a non-permission exception. -/
def raiseOther : Context → CheckResult := fun _ => CheckResult.exc (ChkExn.otherError 0)

/-- A check predicate that raises the permission-failure exception. -/
def raisePerm : Context → CheckResult := fun _ => CheckResult.exc ChkExn.permissionError

/-- A check predicate that returns `True`. -/
def retTrue : Context → CheckResult := fun _ => CheckResult.ok true

/-- A check predicate that returns `False`. -/
def retFalse : Context → CheckResult := fun _ => CheckResult.ok false

/-- A command whose first registered predicate raises and whose second
returns `True` (reachable through `register_check` after removing or
alongside the built-in prefix check). -/
def c1cmd : Command :=
  { name := "cone", level := 0, triggers := [],
    checks := [Chk.user raiseOther, Chk.user retTrue] }

/-- A command used by the C1 witness. -/
def c1wcmd : Command :=
  { name := "conew", level := 0, triggers := [], checks := [Chk.user retFalse] }

/-- A command whose sole predicate raises `PermissionError`. -/
def c5cmd : Command :=
  { name := "cfive", level := 0, triggers := [], checks := [Chk.user raisePerm] }

/-- A command used by the C5 witness. -/
def c5wcmd : Command :=
  { name := "cfivew", level := 0, triggers := [], checks := [Chk.user raisePerm] }

/-- A command whose triggers contain the empty string (constructible in
the source by passing `aliases=[""]` to `Command.__init__`). -/
def c7cmd : Command :=
  { name := "cseven", level := 0, triggers := ["cmd", ""], checks := [Chk.prefixCheck] }

/-- A cluster holding only `c7cmd`. -/
def c7cluster : Cluster := { members := [], cluster_commands := [c7cmd] }

/-- A plain command with a single trigger, used by the C6 witness. -/
def c6wcmd : Command :=
  { name := "alpha", level := 0, triggers := ["alpha"], checks := [Chk.prefixCheck] }

/-- A client whose guild-prefix resolver resolves the empty string, with
global prefix "!". -/
def c8client : CommandClient :=
  { options := { access_levels := [], prefixes := ["!"] },
    guildPrefixResolver := some (fun _ => some ""),
    cluster_commands := [], clusters := [] }

/-- A guild message with content "hello". -/
def c8msg : Message := { authorId := 1, guildId := some 5, content := "hello" }

/-- A guild-prefix resolver returning "?~" everywhere, for the C8
witness. -/
def c8resolver : Nat → Option String := fun _ => some "?~"

/-- A client configured with the resolver above. -/
def c8wclient : CommandClient :=
  { options := { access_levels := [], prefixes := ["!"] },
    guildPrefixResolver := some c8resolver,
    cluster_commands := [], clusters := [] }

/-- A level-5 command triggered by "a". -/
def cmdA : Command :=
  { name := "ca", level := 5, triggers := ["a"], checks := [Chk.prefixCheck] }

/-- A level-1 command triggered by "a". -/
def cmdB : Command :=
  { name := "cb", level := 1, triggers := ["a"], checks := [Chk.prefixCheck] }

/-- A client whose only command is the level-5 `cmdA`; the configured
access level of user 7 is 3. -/
def cl4a : CommandClient :=
  { options := { access_levels := [(7, 3)], prefixes := ["!"] },
    guildPrefixResolver := none, cluster_commands := [cmdA], clusters := [] }

/-- A client whose only command is the level-1 `cmdB`, same options. -/
def cl4b : CommandClient :=
  { options := { access_levels := [(7, 3)], prefixes := ["!"] },
    guildPrefixResolver := none, cluster_commands := [cmdB], clusters := [] }

/-- A message from user 7 reading "!a". -/
def msg4 : Message := { authorId := 7, guildId := none, content := "!a" }

/-- A command with trigger "ab", used by the C10 witness. -/
def c10wcmd : Command :=
  { name := "cten", level := 0, triggers := ["ab"], checks := [Chk.prefixCheck] }

/-- A backoff iterator allowing 5 attempts with a constant one-second
configured delay. -/
def backoff5 : Backoff :=
  { maxRetries := 5, attempt := 0, nextOverride := none, finished := false,
    delayFn := fun _ => 1 }

/-- A backoff iterator allowing 2 attempts, constant one-second delay. -/
def backoff2 : Backoff :=
  { maxRetries := 2, attempt := 0, nextOverride := none, finished := false,
    delayFn := fun _ => 1 }

/-- A backoff iterator allowing 3 attempts, constant one-second delay. -/
def backoff3 : Backoff :=
  { maxRetries := 3, attempt := 0, nextOverride := none, finished := false,
    delayFn := fun _ => 1 }

/-- An action that is rate-limited with a 15-second hint on its first
attempt and succeeds afterwards. -/
def rateAction15 : Nat → Option Exc :=
  fun n => if n = 0 then some (Exc.rateLimited 15) else none

/-- An action that is rate-limited with a 3-second hint on its first
attempt and succeeds afterwards. -/
def rateAction3 : Nat → Option Exc :=
  fun n => if n = 0 then some (Exc.rateLimited 3) else none

/-- An action that hits an internal server error on its first attempt and
succeeds afterwards. -/
def iseOnce : Nat → Option Exc :=
  fun n => if n = 0 then some Exc.internalServerError else none

/-- An action that hits an internal server error on every attempt. -/
def iseAlways : Nat → Option Exc := fun _ => some Exc.internalServerError

/-- An action that raises the tag-7 exception on every attempt. -/
def otherAlways7 : Nat → Option Exc := fun _ => some (Exc.otherExc 7)

/- ------------------------------------------------------------------ -/
/- Helper lemmas                                                      -/
/- ------------------------------------------------------------------ -/

/-- Characterisation of the first-literal-prefix scan returning a hit. -/
theorem fsw_some_iff (content : String) (l : List String) (p : String) :
    firstStartingWith content l = some p ↔
      ∃ l1 l2, l = l1 ++ p :: l2 ∧ startswith content p = true ∧
        ∀ q ∈ l1, startswith content q = false := by
  induction l with
  | nil =>
    constructor
    · intro h; simp [firstStartingWith] at h
    · rintro ⟨l1, l2, h, -, -⟩
      exact absurd h.symm (List.append_ne_nil_of_right_ne_nil _ (List.cons_ne_nil _ _))
  | cons a l ih =>
    by_cases ha : startswith content a = true
    · constructor
      · intro h
        simp [firstStartingWith, ha] at h
        subst h
        exact ⟨[], l, rfl, ha, by simp⟩
      · rintro ⟨l1, l2, hl, hp, hfail⟩
        cases l1 with
        | nil =>
          simp at hl
          obtain ⟨h1, -⟩ := hl
          subst h1
          simp [firstStartingWith, ha]
        | cons b l1' =>
          simp at hl
          obtain ⟨h1, -⟩ := hl
          subst h1
          exact absurd ha (by simp [hfail a (List.mem_cons_self a l1')])
    · have ha' : startswith content a = false := by
        cases hx : startswith content a
        · rfl
        · exact absurd hx ha
      constructor
      · intro h
        rw [firstStartingWith, if_neg (by simp [ha'])] at h
        obtain ⟨l1, l2, hl, hp, hfail⟩ := ih.mp h
        refine ⟨a :: l1, l2, by rw [hl]; rfl, hp, ?_⟩
        intro q hq
        rcases List.mem_cons.mp hq with rfl | hq
        · exact ha'
        · exact hfail q hq
      · rintro ⟨l1, l2, hl, hp, hfail⟩
        cases l1 with
        | nil =>
          simp at hl
          obtain ⟨h1, -⟩ := hl
          subst h1
          exact absurd hp ha
        | cons b l1' =>
          simp at hl
          obtain ⟨h1, h2⟩ := hl
          subst h1
          rw [firstStartingWith, if_neg (by simp [ha'])]
          exact ih.mpr ⟨l1', l2, h2, hp, fun q hq => hfail q (List.mem_cons_of_mem _ hq)⟩

/-- Characterisation of the first-literal-prefix scan finding nothing. -/
theorem fsw_none_iff (content : String) (l : List String) :
    firstStartingWith content l = none ↔
      ∀ q ∈ l, startswith content q = false := by
  induction l with
  | nil => simp [firstStartingWith]
  | cons a l ih =>
    by_cases ha : startswith content a = true
    · simp [firstStartingWith, ha]
    · have ha' : startswith content a = false := by
        cases hx : startswith content a
        · rfl
        · exact absurd hx ha
      rw [firstStartingWith, if_neg (by simp [ha'])]
      simp [ih, ha']

/-- Inserting into the descending-sorted list grows the length by one. -/
theorem insertDesc_length (c : Command) (l : List Command) :
    (insertDesc c l).length = l.length + 1 := by
  induction l with
  | nil => rfl
  | cons d ds ih =>
    by_cases h : d.name < c.name
    · simp [insertDesc, h]
    · simp [insertDesc, h, ih]

/-- The fold underlying the descending sort preserves total length. -/
theorem sortFold_length (l : List Command) :
    ∀ acc : List Command,
      (List.foldl (fun acc c => insertDesc c acc) acc l).length =
        acc.length + l.length := by
  induction l with
  | nil => intro acc; rfl
  | cons c cs ih =>
    intro acc
    simp [List.foldl, ih, insertDesc_length]
    omega

/-- The descending sort preserves length. -/
theorem sortByNameDesc_length (l : List Command) :
    (sortByNameDesc l).length = l.length := by
  simpa using sortFold_length l []

/-- The get_command_from_name loop yields, in stored order, exactly the
commands whose first matching trigger is truthy, paired with it. -/
theorem gcfn_eq (content : String) (l : List Command) :
    gcfnGo content l =
      (l.filter (fun c =>
          match Command.check_prefix c content with
          | some p => !p.isEmpty
          | none => false)).map
        (fun c => (c, ( Command.check_prefix c content).getD "")) := by
  induction l with
  | nil => rfl
  | cons c cs ih =>
    rw [gcfnGo, List.filter_cons]
    cases h : Command.check_prefix c content with
    | none => simp [h, ih]
    | some p =>
      by_cases hp : p.isEmpty = true
      · simp [h, hp, ih]
      · simp [h, hp, ih]

/- ------------------------------------------------------------------ -/
/- C6                                                                  -/
/- ------------------------------------------------------------------ -/

/-- C6 (amended): a second `bind_commands` call on a cluster whose first
bind registered at least one command always raises; the guard tests
emptiness of `cluster_commands`, so this requires the first bind to have
discovered at least one member. -/
theorem c6_theorem : ∀ (cl cl' : Cluster), cl.members ≠ [] →
    bind_commands cl = .ok cl' →
    bind_commands cl' =
      .error "Cannot bind commands in cluster when commands have already been binded." := by
  intro cl cl' hm hb
  unfold bind_commands at hb
  by_cases he : cl.cluster_commands.isEmpty = true
  · rw [if_pos he] at hb
    injection hb with hb
    have hne : sortByNameDesc cl.members ≠ [] := by
      intro h0
      apply hm
      have hlen := congrArg List.length h0
      rw [sortByNameDesc_length] at hlen
      exact List.length_eq_zero.mp (by simpa using hlen)
    have hemp : ¬cl'.cluster_commands.isEmpty = true := by
      intro hemp
      rw [← hb] at hemp
      exact hne (List.isEmpty_iff.mp hemp)
    unfold bind_commands
    rw [if_neg hemp]
  · rw [if_neg he] at hb
    exact absurd hb (by simp)

/-- C6 witness: a cluster with one discovered command binds once and then
refuses to re-bind. -/
theorem c6_witness :
    bind_commands { members := [c6wcmd], cluster_commands := [c6wcmd] } =
      .error "Cannot bind commands in cluster when commands have already been binded." :=
  c6_theorem { members := [c6wcmd], cluster_commands := [] }
    { members := [c6wcmd], cluster_commands := [c6wcmd] } (by simp) rfl

/-- C6 counterexample: on a cluster with no commands the first
`bind_commands` completes and leaves `cluster_commands` empty, so a
second call passes the `assert_that(not self.cluster_commands, ...)`
guard and succeeds silently instead of failing — the claim's "any second
call fails with an error" is false for such a cluster. -/
theorem c6_counterexample :
    (bind_commands { members := [], cluster_commands := [] } >>=
        bind_commands) =
      Except.ok { members := ([] : List Command), cluster_commands := ([] : List Command) } := rfl

/- ------------------------------------------------------------------ -/
/- C7                                                                  -/
/- ------------------------------------------------------------------ -/

/-- C7 (amended): `get_command_from_name` yields, in the cluster's stored
command order, one pair per command whose first content-prefixing trigger
(in the command's declared order) is non-empty, paired with exactly that
trigger; a command whose first matching trigger is the empty string is
skipped by the loop's truthiness test, even though a trigger of it does
prefix the content.  The second conjunct characterises
`Command.check_prefix` as the first declared trigger that literally
prefixes the content. -/
theorem c7_theorem :
    (∀ (cl : Cluster) (content : String),
        get_command_from_name cl content =
          (cl.cluster_commands.filter (fun c =>
              match Command.check_prefix c content with
              | some p => !p.isEmpty
              | none => false)).map
            (fun c => (c, ( Command.check_prefix c content).getD ""))) ∧
    (∀ (c : Command) (content p : String),
        Command.check_prefix c content = some p ↔
          ∃ l1 l2, c.triggers = l1 ++ p :: l2 ∧ startswith content p = true ∧
            ∀ q ∈ l1, startswith content q = false) :=
  ⟨fun cl content => gcfn_eq content cl.cluster_commands,
   fun c content p => fsw_some_iff content c.triggers p⟩

/-- C7 counterexample: `c7cmd` declares triggers `["cmd", ""]` and the
empty trigger literally prefixes "abc", yet `get_command_from_name`
yields nothing for it, because the first matching trigger is `""` and
`if prefix := command_obj.check_prefix(content)` treats the empty string
as falsy — contradicting "one pair for every command having some declared
trigger that is a literal prefix of the content". -/
theorem c7_counterexample :
    "" ∈ c7cmd.triggers ∧ startswith "abc" "" = true ∧
    get_command_from_name c7cluster "abc" = [] :=
  ⟨by decide, by decide, rfl⟩

/- ------------------------------------------------------------------ -/
/- C8                                                                  -/
/- ------------------------------------------------------------------ -/

/-- C8 (amended): the global prefixes are always a suffix of the scanned
prefix list; a guild message with a configured resolver that resolves a
non-empty prefix gets exactly that prefix prepended; `check_prefix`
returns the first scanned prefix that literally prefixes the content and
`None` exactly when none matches.  (A resolved empty-string prefix is
dropped by the `if guild_prefix` truthiness test rather than tried.) -/
theorem c8_theorem :
    (∀ (cl : CommandClient) (g : Option Nat),
        cl.options.prefixes <:+ get_prefixes cl g) ∧
    (∀ (cl : CommandClient) (g : Nat) (resolve : Nat → Option String)
        (gp : String),
        cl.guildPrefixResolver = some resolve → resolve g = some gp →
        gp.isEmpty = false →
        get_prefixes cl (some g) = gp :: cl.options.prefixes) ∧
    (∀ (cl : CommandClient) (msg : Message) (p : String),
        CommandClient.check_prefix cl msg = some p ↔
          ∃ l1 l2, get_prefixes cl msg.guildId = l1 ++ p :: l2 ∧
            startswith msg.content p = true ∧
            ∀ q ∈ l1, startswith msg.content q = false) ∧
    (∀ (cl : CommandClient) (msg : Message),
        CommandClient.check_prefix cl msg = none ↔
          ∀ q ∈ get_prefixes cl msg.guildId,
            startswith msg.content q = false) := by
  refine ⟨?_, ?_, ?_, ?_⟩
  · intro cl g
    cases g with
    | none => simp [get_prefixes]
    | some gv =>
      cases hres : cl.guildPrefixResolver with
      | none => simp [get_prefixes, hres]
      | some resolve =>
        cases hr : resolve gv with
        | none => simp [get_prefixes, hres, hr]
        | some gp =>
          by_cases hgp : gp.isEmpty = true
          · simp [get_prefixes, hres, hr, hgp]
          · simp only [get_prefixes, hres, hr, if_neg hgp]
            exact List.suffix_cons gp _
  · intro cl g resolve gp h1 h2 h3
    simp [get_prefixes, h1, h2, h3]
  · intro cl msg p
    exact fsw_some_iff msg.content (get_prefixes cl msg.guildId) p
  · intro cl msg
    exact fsw_none_iff msg.content (get_prefixes cl msg.guildId)

/-- C8 witness: with a resolver returning "?~" for every guild, the guild
prefix is tried before the global "!". -/
theorem c8_witness :
    get_prefixes c8wclient (some 5) = "?~" :: c8wclient.options.prefixes :=
  c8_theorem.2.1 c8wclient 5 c8resolver "?~" rfl rfl (by decide)

/-- C8 counterexample: the resolver of `c8client` resolves the empty
string for guild 5, a string that literally prefixes "hello"; the claim's
scan order (resolved guild prefix first, then the globals) would return
it, yet `check_prefix` returns `None` because `_get_prefixes` drops a
falsy guild prefix and "!" does not match. -/
theorem c8_counterexample :
    CommandClient.check_prefix c8client c8msg = none ∧
    firstStartingWith "hello" ("" :: ["!"]) = some "" := by
  refine ⟨?_, by decide⟩
  decide

/- ------------------------------------------------------------------ -/
/- Command.check lemmas                                               -/
/- ------------------------------------------------------------------ -/

/-- Peeling one evaluated outcome off a trace: the default only matters
for an empty trace. -/
theorem traceResult_cons (r : Bool) (x : CheckResult) (tr : List CheckResult) :
    traceResult r (x :: tr) =
      traceResult (match x with | .ok b => b | .exc _ => false) tr := by
  cases tr with
  | nil =>
    cases x with
    | ok b => rfl
    | exc e => rfl
  | cons y tr' =>
    simp only [traceResult, List.getLast?_cons_cons]
    cases h : (y :: tr').getLast? with
    | none => exact absurd h (by simp)
    | some z => cases z <;> rfl

/-- The check loop never raises, and its boolean is the value of the last
evaluated predicate outcome (default `result = False` for an empty
list). -/
theorem checkLoop_trace (c : Command) :
    ∀ (cs : List Chk) (r : Bool) (ctx : Context),
      ∃ ctx', checkLoop c cs r ctx = .ok (traceResult r (checkTrace c cs ctx), ctx') := by
  intro cs
  induction cs with
  | nil =>
    intro r ctx
    exact ⟨ctx, rfl⟩
  | cons chk rest ih =>
    intro r ctx
    rcases hrc : runCheck c chk ctx with ⟨res, ctx₁⟩
    cases res with
    | ok b =>
      cases b with
      | false =>
        refine ⟨ctx₁, ?_⟩
        simp [checkLoop, checkTrace, hrc, traceResult]
      | true =>
        obtain ⟨ctx', hih⟩ := ih true ctx₁
        refine ⟨ctx', ?_⟩
        simp [checkLoop, checkTrace, hrc, traceResult_cons, hih]
    | exc e =>
      obtain ⟨ctx', hih⟩ := ih false ctx₁
      refine ⟨ctx', ?_⟩
      simp [checkLoop, checkTrace, hrc, isException, traceResult_cons, hih]

/-- With the loop's initial `result = False`, the derived boolean is true
exactly when the trace ends in an explicit `True`. -/
theorem traceResult_false_iff (tr : List CheckResult) :
    traceResult false tr = true ↔ tr.getLast? = some (CheckResult.ok true) := by
  cases h : tr.getLast? with
  | none => simp [traceResult, h]
  | some x =>
    cases x with
    | ok b => cases b <;> simp [traceResult, h]
    | exc e => simp [traceResult, h]

/-- The prefix-check loop never touches `ctx.command`. -/
theorem cpfcGo_command : ∀ (ts : List String) (ctx : Context),
    (cpfcGo ts ctx).2.command = ctx.command := by
  intro ts
  induction ts with
  | nil => intro ctx; rfl
  | cons t ts ih =>
    intro ctx
    by_cases h : startswith ctx.content t = true
    · simp [cpfcGo, h, Context.set_command_trigger]
    · simp only [cpfcGo]
      rw [if_neg h]
      exact ih ctx

/-- No check predicate reassigns `ctx.command`. -/
theorem runCheck_command (c : Command) (chk : Chk) (ctx : Context) :
    (runCheck c chk ctx).2.command = ctx.command := by
  cases chk with
  | prefixCheck => exact cpfcGo_command c.triggers ctx
  | user f => rfl

/-- The check loop preserves `ctx.command`. -/
theorem checkLoop_command (c : Command) :
    ∀ (cs : List Chk) (r : Bool) (ctx : Context) (b : Bool) (ctx' : Context),
      checkLoop c cs r ctx = .ok (b, ctx') → ctx'.command = ctx.command := by
  intro cs
  induction cs with
  | nil =>
    intro r ctx b ctx' h
    injection h with h
    injection h with h1 h2
    rw [← h2]
  | cons chk rest ih =>
    intro r ctx b ctx' h
    rcases hrc : runCheck c chk ctx with ⟨res, ctx₁⟩
    have hc₁ : ctx₁.command = ctx.command := by
      have hpres := runCheck_command c chk ctx
      rw [hrc] at hpres
      exact hpres
    cases res with
    | ok bb =>
      cases bb with
      | false =>
        have hstep : checkLoop c (chk :: rest) r ctx = .ok (false, ctx₁) := by
          simp [checkLoop, hrc]
        rw [hstep] at h
        injection h with h
        injection h with h1 h2
        rw [← h2]
        exact hc₁
      | true =>
        have hstep : checkLoop c (chk :: rest) r ctx = checkLoop c rest true ctx₁ := by
          simp [checkLoop, hrc]
        rw [hstep] at h
        rw [ih true ctx₁ b ctx' h]
        exact hc₁
    | exc e =>
      have hstep : checkLoop c (chk :: rest) r ctx = checkLoop c rest false ctx₁ := by
        simp [checkLoop, hrc, isException]
      rw [hstep] at h
      rw [ih false ctx₁ b ctx' h]
      exact hc₁

/-- When some trigger prefixes the content, the built-in prefix predicate
succeeds and records the first matching trigger on the context. -/
theorem cpfcGo_hit (ctx : Context) :
    ∀ (ts : List String) (t : String),
      firstStartingWith ctx.content ts = some t →
      cpfcGo ts ctx = (.ok true, Context.set_command_trigger ctx t) := by
  intro ts
  induction ts with
  | nil => intro t h; simp [firstStartingWith] at h
  | cons a ts ih =>
    intro t h
    by_cases ha : startswith ctx.content a = true
    · simp [firstStartingWith, ha] at h
      subst h
      simp [cpfcGo, ha]
    · rw [firstStartingWith, if_neg ha] at h
      rw [cpfcGo, if_neg ha]
      exact ih t h

/- ------------------------------------------------------------------ -/
/- C1                                                                  -/
/- ------------------------------------------------------------------ -/

/-- C1 (amended): `Command.check(ctx)` returns the value of the last
evaluated predicate outcome — true exactly when the evaluated-outcome
trace ends in an explicit `True`.  Evaluation short-circuits at the first
predicate that returns `False` (second conjunct: the result is fixed at
that point, independently of the remaining predicates), but a predicate
that raises only sets the pending result to `False` and evaluation
continues, so a later predicate returning `True` makes `check` return
true even though a predicate failed. -/
theorem c1_theorem :
    (∀ (c : Command) (ctx : Context),
        ∃ b ctx', Command.check c ctx = .ok (b, ctx') ∧
          (b = true ↔
            (checkTrace c c.checks (Context.set_command ctx c.name)).getLast? =
              some (CheckResult.ok true))) ∧
    (∀ (c : Command) (chk : Chk) (rest : List Chk) (r : Bool)
        (ctx ctx' : Context),
        runCheck c chk ctx = (.ok false, ctx') →
        checkLoop c (chk :: rest) r ctx = .ok (false, ctx')) := by
  constructor
  · intro c ctx
    obtain ⟨ctx', h⟩ := checkLoop_trace c c.checks false (Context.set_command ctx c.name)
    exact ⟨_, ctx', h, traceResult_false_iff _⟩
  · intro c chk rest r ctx ctx' h
    simp [checkLoop, h]

/-- C1 witness: instantiating both conjuncts — a command whose sole
predicate raises, and a head predicate returning `False` freezing the
loop's result. -/
theorem c1_witness :
    checkLoop c1wcmd (Chk.user retFalse :: [Chk.user retTrue]) true baseCtx =
      .ok (false, baseCtx) :=
  c1_theorem.2 c1wcmd (Chk.user retFalse) [Chk.user retTrue] true baseCtx baseCtx rfl

/-- C1 counterexample: `c1cmd`'s first registered predicate raises (a
false result under the claim's reading) and its second returns `True`;
the loop does not stop at the raise, so `check` returns true — refuting
"returns true only if every registered check predicate evaluated to true,
a predicate that raises counting as a false result, with evaluation
short-circuiting at the first false". -/
theorem c1_counterexample :
    Command.check c1cmd baseCtx = .ok (true, Context.set_command baseCtx "cone") ∧
    allChecksTrue c1cmd c1cmd.checks (Context.set_command baseCtx "cone") = false :=
  ⟨rfl, rfl⟩

/- ------------------------------------------------------------------ -/
/- C5                                                                  -/
/- ------------------------------------------------------------------ -/

/-- C5 (amended): `Command.check` never re-raises anything: every
exception a predicate raises — the canonical permission-failure
`PermissionError` included, since it too derives from `Exception` — is
caught by the `except Exception` clause, which records a false result for
that predicate and moves on to the next one (second conjunct). -/
theorem c5_theorem :
    (∀ (c : Command) (ctx : Context),
        ∃ b ctx', Command.check c ctx = .ok (b, ctx')) ∧
    (∀ (c : Command) (f : Context → CheckResult) (rest : List Chk) (r : Bool)
        (ctx : Context) (e : ChkExn),
        f ctx = .exc e →
        checkLoop c (Chk.user f :: rest) r ctx = checkLoop c rest false ctx) := by
  constructor
  · intro c ctx
    obtain ⟨ctx', h⟩ := checkLoop_trace c c.checks false (Context.set_command ctx c.name)
    exact ⟨_, ctx', h⟩
  · intro c f rest r ctx e h
    simp [checkLoop, runCheck, h, isException]

/-- C5 witness: both conjuncts instantiated on a command whose sole
predicate raises `PermissionError`. -/
theorem c5_witness :
    checkLoop c5wcmd (Chk.user raisePerm :: []) true baseCtx =
      checkLoop c5wcmd [] false baseCtx :=
  c5_theorem.2 c5wcmd raisePerm [] true baseCtx ChkExn.permissionError rfl

/-- C5 counterexample: the sole predicate of `c5cmd` raises
`PermissionError`, yet `check` returns normally with `False` instead of
re-raising it — `except Exception` catches `PermissionError` like any
other exception, refuting the claimed re-raise. -/
theorem c5_counterexample :
    raisePerm baseCtx = CheckResult.exc ChkExn.permissionError ∧
    Command.check c5cmd baseCtx = .ok (false, Context.set_command baseCtx "cfive") :=
  ⟨rfl, rfl⟩

/- ------------------------------------------------------------------ -/
/- C10                                                                 -/
/- ------------------------------------------------------------------ -/

/-- C10: every `Command.check` call stores the checked command on the
context before running the predicates and nothing in the loop undoes
this, whatever the predicates return or raise (first conjunct); the
built-in prefix predicate returns `True` and records the first matching
trigger in `ctx.triggering_name` whenever some declared trigger prefixes
the content (second conjunct).  A failing candidate therefore still
leaves its identity — and, when a trigger matched, the matched trigger —
on the shared context. -/
theorem c10_theorem :
    (∀ (c : Command) (ctx : Context) (b : Bool) (ctx' : Context),
        Command.check c ctx = .ok (b, ctx') → ctx'.command = some c.name) ∧
    (∀ (c : Command) (ctx : Context) (t : String),
        firstStartingWith ctx.content c.triggers = some t →
        check_prefix_from_context c ctx = (.ok true, Context.set_command_trigger ctx t)) := by
  constructor
  · intro c ctx b ctx' h
    have hcmd := checkLoop_command c c.checks false (Context.set_command ctx c.name) b ctx' h
    rw [hcmd]
    rfl
  · intro c ctx t h
    exact cpfcGo_hit ctx c.triggers t h

/-- C10 witness: a failing check still leaves the command name and the
matched trigger on the context.  `c1cmd`'s check returns true and records
its name; `c10wcmd`'s trigger "ab" prefixes "abc" and is recorded. -/
theorem c10_witness :
    (Context.set_command baseCtx "cone").command = some c1cmd.name ∧
    check_prefix_from_context c10wcmd ctxAb =
      (.ok true, Context.set_command_trigger ctxAb "ab") :=
  ⟨c10_theorem.1 c1cmd baseCtx true (Context.set_command baseCtx "cone") rfl,
   c10_theorem.2 c10wcmd ctxAb "ab" rfl⟩

/- ------------------------------------------------------------------ -/
/- C4                                                                  -/
/- ------------------------------------------------------------------ -/

/-- Command.check always returns a boolean and a context — the loop has
no uncaught exception path. -/
theorem check_ok (c : Command) (ctx : Context) :
    ∃ b ctx', Command.check c ctx = .ok (b, ctx') := by
  obtain ⟨ctx', h⟩ := checkLoop_trace c c.checks false (Context.set_command ctx c.name)
  exact ⟨_, ctx', h⟩

/-- A selected command passed its access check, sits after a skipped
stretch of the traversal, and passed its own `check` on the context as
threaded to it. -/
theorem findExecutable_some (cl : CommandClient) (msg : Message) :
    ∀ (cmds : List Command) (ctx : Context) (c : Command) (ctxF : Context),
      findExecutable cl msg cmds ctx = .ok (some (c, ctxF)) →
      access_check cl c msg = true ∧
      ∃ l1 l2 ctxM, cmds = l1 ++ c :: l2 ∧ skippedTo cl msg l1 ctx ctxM ∧
        Command.check c ctxM = .ok (true, ctxF) := by
  intro cmds
  induction cmds with
  | nil => intro ctx c ctxF h; simp [findExecutable] at h
  | cons d cs ih =>
    intro ctx c ctxF h
    obtain ⟨b, ctx₁, hchk⟩ := check_ok d ctx
    rw [findExecutable, hchk] at h
    cases b with
    | false =>
      simp only [Bool.false_eq_true, if_false] at h
      obtain ⟨hacc', l1, l2, ctxM, hcs, hskip, hc⟩ := ih ctx₁ c ctxF h
      exact ⟨hacc', d :: l1, l2, ctxM, by rw [hcs]; rfl,
        ⟨false, ctx₁, hchk, Or.inl rfl, hskip⟩, hc⟩
    | true =>
      simp only [if_true] at h
      by_cases hacc : access_check cl d msg = true
      · rw [if_pos hacc] at h
        injection h with h
        injection h with h
        injection h with h1 h2
        subst h1
        subst h2
        exact ⟨hacc, [], cs, ctx, rfl, rfl, hchk⟩
      · rw [if_neg hacc] at h
        obtain ⟨hacc', l1, l2, ctxM, hcs, hskip, hc⟩ := ih ctx₁ c ctxF h
        refine ⟨hacc', d :: l1, l2, ctxM, by rw [hcs]; rfl,
          ⟨true, ctx₁, hchk, Or.inr ?_, hskip⟩, hc⟩
        cases hx : access_check cl d msg
        · rfl
        · exact absurd hx hacc

/-- When every command of the list fails the access check, the traversal
selects nothing (whatever the checks do to the context). -/
theorem findExecutable_none_of_access (cl : CommandClient) (msg : Message) :
    ∀ (cmds : List Command) (ctx : Context),
      (∀ c ∈ cmds, access_check cl c msg = false) →
      findExecutable cl msg cmds ctx = .ok none := by
  intro cmds
  induction cmds with
  | nil => intro ctx h; rfl
  | cons d cs ih =>
    intro ctx h
    obtain ⟨b, ctx₁, hchk⟩ := check_ok d ctx
    rw [findExecutable, hchk]
    have hd : access_check cl d msg = false := h d (List.mem_cons_self d cs)
    have htail := ih ctx₁ (fun c hc => h c (List.mem_cons_of_mem _ hc))
    cases b with
    | false => simpa using htail
    | true => simp [hd, htail]

/-- C4: `access_check` passes exactly when the author's configured level
(0 when the author id has no entry) is at least the command's level
(first conjunct); a command executed by the dispatch traversal passed the
access check and every command before it in traversal order was skipped
— it failed its check or its access check on the threaded context
(second conjunct); when every command fails the access check the
traversal selects nothing (third conjunct) and `on_message_create`
returns silently without executing or raising (fourth conjunct). -/
theorem c4_theorem :
    (∀ (cl : CommandClient) (c : Command) (msg : Message),
        access_check cl c msg = true ↔
          lookupLevel cl.options.access_levels msg.authorId ≥ c.level) ∧
    (∀ (cl : CommandClient) (msg : Message) (cmds : List Command)
        (ctx : Context) (c : Command) (ctxF : Context),
        findExecutable cl msg cmds ctx = .ok (some (c, ctxF)) →
        access_check cl c msg = true ∧
          ∃ l1 l2 ctxM, cmds = l1 ++ c :: l2 ∧ skippedTo cl msg l1 ctx ctxM ∧
            Command.check c ctxM = .ok (true, ctxF)) ∧
    (∀ (cl : CommandClient) (msg : Message) (cmds : List Command)
        (ctx : Context),
        (∀ c ∈ cmds, access_check cl c msg = false) →
        findExecutable cl msg cmds ctx = .ok none) ∧
    (∀ (cl : CommandClient) (msg : Message) (p : String),
        CommandClient.check_prefix cl msg = some p → p.isEmpty = false →
        (∀ c ∈ allCommands cl, access_check cl c msg = false) →
        on_message_create cl msg = .noCommandExecuted) := by
  refine ⟨?_, ?_, ?_, ?_⟩
  · intro cl c msg
    simp [access_check, ge_iff_le]
  · intro cl msg cmds ctx c ctxF h
    exact findExecutable_some cl msg cmds ctx c ctxF h
  · intro cl msg cmds ctx h
    exact findExecutable_none_of_access cl msg cmds ctx h
  · intro cl msg p hp hne hacc
    unfold on_message_create
    rw [hp]
    simp only [hne, Bool.false_eq_true, if_false]
    rw [findExecutable_none_of_access cl msg (allCommands cl) _ hacc]

/-- C4 witness: user 7 has level 3; the level-1 command `cmdB` is
selected on "!a" (discharging the second conjunct's hypothesis on the
concrete traversal), while against the level-5-only client the same
message is dropped silently. -/
theorem c4_witness :
    (access_check cl4b cmdB msg4 = true ↔
      lookupLevel cl4b.options.access_levels msg4.authorId ≥ cmdB.level) ∧
    access_check cl4b cmdB msg4 = true ∧
    findExecutable cl4a msg4 [cmdA]
      { content := "a", trigger := "!", command := none, triggering_name := none } =
        .ok none ∧
    on_message_create cl4a msg4 = .noCommandExecuted := by
  have hall : ∀ c ∈ [cmdA], access_check cl4a c msg4 = false := by
    intro c hc
    rw [List.mem_singleton] at hc
    subst hc
    rfl
  refine ⟨c4_theorem.1 cl4b cmdB msg4, ?_, ?_, ?_⟩
  · exact (c4_theorem.2.1 cl4b msg4 [cmdB]
      { content := "a", trigger := "!", command := none, triggering_name := none }
      cmdB
      { content := "a", trigger := "!", command := some "cb",
        triggering_name := some "a" }
      rfl).1
  · exact c4_theorem.2.2.1 cl4a msg4 [cmdA]
      { content := "a", trigger := "!", command := none, triggering_name := none }
      hall
  · refine c4_theorem.2.2.2 cl4a msg4 "!" rfl (by decide) ?_
    intro c hc
    have hc' : c = cmdA := by
      simpa [allCommands, cl4a] using hc
    subst hc'
    rfl

/- ------------------------------------------------------------------ -/
/- Error-manager lemmas                                               -/
/- ------------------------------------------------------------------ -/

/-- First permit of a fresh (reset) backoff: immediate, no sleep. -/
theorem Backoff.next_fresh (b : Backoff) (hf : b.finished = false)
    (h0 : b.attempt = 0) (hm : 1 ≤ b.maxRetries) :
    Backoff.next b = some (0, { b with attempt := 1 }) := by
  unfold Backoff.next
  rw [hf, h0]
  rw [if_neg (by simp), if_neg (by omega), if_pos rfl]

/-- A later permit sleeps the override if one is pending, else the
configured delay. -/
theorem Backoff.next_mid (b : Backoff) (hf : b.finished = false)
    (h0 : b.attempt ≠ 0) (hlt : b.attempt < b.maxRetries) :
    Backoff.next b = some (b.nextOverride.getD (b.delayFn b.attempt),
      { b with attempt := b.attempt + 1, nextOverride := none }) := by
  unfold Backoff.next
  rw [hf]
  rw [if_neg (by simp), if_neg (by omega), if_neg h0]

/-- A finished backoff ends the retry loop at once. -/
theorem tryRespondGo_finished (breakOn : List ExcType) (action : Nat → Option Exc) :
    ∀ (fuel count : Nat) (ds : List ℚ) (b : Backoff), b.finished = true →
      tryRespondGo breakOn action fuel count ds b = .gaveUp count ds.reverse := by
  intro fuel count ds b h
  cases fuel with
  | zero => rfl
  | succ f => simp [tryRespondGo, Backoff.next, h]

/-- One iteration of the retry loop, given the backoff yields a permit. -/
theorem tryRespondGo_step (breakOn : List ExcType) (action : Nat → Option Exc)
    (fuel count : Nat) (ds : List ℚ) (b : Backoff) (delay : ℚ) (b' : Backoff)
    (hnext : Backoff.next b = some (delay, b')) :
    tryRespondGo breakOn action (fuel + 1) count ds b =
      match action count with
      | none => .success (count + 1) (delay :: ds).reverse
      | some e =>
        match applyRules (hikariRules breakOn) e b' with
        | none => .propagated e (count + 1) (delay :: ds).reverse
        | some (reraise, b'') =>
          if reraise then .propagated e (count + 1) (delay :: ds).reverse
          else tryRespondGo breakOn action fuel (count + 1) (delay :: ds) b'' := by
  rw [tryRespondGo, hnext]

/-- An internal server error always hits the first rule: suppressed,
backoff untouched. -/
theorem applyRules_internal (breakOn : List ExcType) (b : Backoff) :
    applyRules (hikariRules breakOn) Exc.internalServerError b = some (false, b) := by
  simp [hikariRules, applyRules, runCb, Exc.excType]

/-- A rate-limited error always hits the second rule: re-raised when the
hint exceeds 10 seconds, otherwise suppressed with the next sleep set to
the hint. -/
theorem applyRules_rate (breakOn : List ExcType) (b : Backoff) (r : ℚ) :
    applyRules (hikariRules breakOn) (Exc.rateLimited r) b =
      some (if 10 < r then (true, b)
            else (false, Backoff.set_next_backoff b r)) := by
  by_cases hr : 10 < r
  · simp [hikariRules, applyRules, runCb, Exc.excType, hr]
  · simp [hikariRules, applyRules, runCb, Exc.excType, hr]

/-- An exception in the break-on set matching neither default rule hits
the break-on rule: suppressed, backoff force-finished. -/
theorem applyRules_break (breakOn : List ExcType) (e : Exc) (b : Backoff)
    (hmem : Exc.excType e ∈ breakOn)
    (hni : Exc.excType e ≠ ExcType.internalServerErrorType)
    (hnr : Exc.excType e ≠ ExcType.rateLimitedType) :
    applyRules (hikariRules breakOn) e b = some (false, Backoff.finish b) := by
  have hne : breakOn.isEmpty = false := by
    cases breakOn
    · simp at hmem
    · rfl
  simp [hikariRules, applyRules, runCb, hne, hni, hnr, hmem]

/- ------------------------------------------------------------------ -/
/- C2                                                                  -/
/- ------------------------------------------------------------------ -/

/-- C2 (amended): on a rate-limited failure, `_on_rate_limited_error`
returns `True` when the retry-after hint exceeds 10 seconds, so the error
is re-raised: `try_respond` aborts by propagating the rate-limit error to
its caller, not by suppressing it (first conjunct).  With a hint of at
most 10 seconds the callback sets the backoff's next sleep to exactly the
hint and returns `False`: the error is suppressed, the loop retries after
exactly the hinted delay, and `try_respond` returns without propagating
once the next attempt succeeds (second conjunct). -/
theorem c2_theorem :
    (∀ (breakOn : List ExcType) (b : Backoff) (action : Nat → Option Exc) (r : ℚ),
        action 0 = some (Exc.rateLimited r) → 10 < r → 1 ≤ b.maxRetries →
        try_respond breakOn b action = .propagated (Exc.rateLimited r) 1 [0]) ∧
    (∀ (breakOn : List ExcType) (b : Backoff) (action : Nat → Option Exc) (r : ℚ),
        action 0 = some (Exc.rateLimited r) → r ≤ 10 → action 1 = none →
        2 ≤ b.maxRetries →
        try_respond breakOn b action = .success 2 [0, r]) := by
  constructor
  · intro breakOn b action r h0 hr hm
    unfold try_respond
    obtain ⟨k, hk⟩ : ∃ k, b.maxRetries = k + 1 := ⟨b.maxRetries - 1, by omega⟩
    rw [hk]
    rw [tryRespondGo_step breakOn action k 0 [] (Backoff.reset b) 0 _
      (Backoff.next_fresh _ rfl rfl hm)]
    rw [h0]
    simp only [applyRules_rate, hr, if_true]
    simp
  · intro breakOn b action r h0 hr h1 hm
    unfold try_respond
    obtain ⟨k, hk⟩ : ∃ k, b.maxRetries = k + 2 := ⟨b.maxRetries - 2, by omega⟩
    rw [hk]
    rw [tryRespondGo_step breakOn action (k + 1) 0 [] (Backoff.reset b) 0 _
      (Backoff.next_fresh _ rfl rfl (by show 1 ≤ b.maxRetries; omega))]
    rw [h0]
    have hnr : ¬ (10 < r) := not_lt.mpr hr
    have hmid : Backoff.next (Backoff.set_next_backoff { Backoff.reset b with attempt := 1 } r) =
        some (r, { Backoff.reset b with attempt := 2 }) := by
      rw [Backoff.next_mid _ rfl Nat.one_ne_zero (by show 1 < b.maxRetries; omega)]
      rfl
    simp only [applyRules_rate, hnr, if_false, Bool.false_eq_true, Nat.zero_add]
    rw [tryRespondGo_step breakOn action k 1 [0] _ r _ hmid]
    rw [h1]
    simp

/-- C2 witness: a 15-second hint propagates after one attempt; a
3-second hint is retried after exactly 3 seconds and the second attempt's
success returns without propagating. -/
theorem c2_witness :
    try_respond [] backoff5 rateAction15 = .propagated (Exc.rateLimited 15) 1 [0] ∧
    try_respond [] backoff5 rateAction3 = .success 2 [0, 3] :=
  ⟨c2_theorem.1 [] backoff5 rateAction15 15 rfl (by norm_num) (by decide),
   c2_theorem.2 [] backoff5 rateAction3 3 rfl (by norm_num) rfl (by decide)⟩

/-- C2 counterexample: with a retry-after hint of 15 seconds the
rate-limit error is re-raised out of `try_respond` — the claim's "aborts
and suppresses the error" is false: the caller sees the exception. -/
theorem c2_counterexample :
    rateAction15 0 = some (Exc.rateLimited 15) ∧
    try_respond [] backoff5 rateAction15 = .propagated (Exc.rateLimited 15) 1 [0] := by
  constructor
  · rfl
  · decide

/- ------------------------------------------------------------------ -/
/- C3                                                                  -/
/- ------------------------------------------------------------------ -/

/-- When the action fails with an internal server error on every attempt,
the loop keeps retrying until the permits run out and then returns with
the failure suppressed. -/
theorem tryRespondGo_ise (breakOn : List ExcType) (action : Nat → Option Exc)
    (ha : ∀ k, action k = some Exc.internalServerError) :
    ∀ (fuel count : Nat) (ds : List ℚ) (b : Backoff),
      b.finished = false → b.nextOverride = none → fuel = b.maxRetries - b.attempt →
      tryRespondGo breakOn action fuel count ds b =
        .gaveUp (count + fuel)
          (ds.reverse ++
            (List.range' b.attempt fuel).map
              (fun i => if i = 0 then 0 else b.delayFn i)) := by
  intro fuel
  induction fuel with
  | zero =>
    intro count ds b hf ho hfu
    simp [tryRespondGo]
  | succ f ihf =>
    intro count ds b hf ho hfu
    have hlt : b.attempt < b.maxRetries := by omega
    by_cases h0 : b.attempt = 0
    · have hds := ihf (count + 1) (0 :: ds) { b with attempt := 1 } hf ho
        (by show f = b.maxRetries - 1; omega)
      rw [tryRespondGo_step breakOn action f count ds b 0 _
        (Backoff.next_fresh b hf h0 (by omega))]
      rw [ha count]
      simp only [applyRules_internal, Bool.false_eq_true, if_false]
      rw [hds, h0]
      rw [List.range', List.map]
      congr 1
      · omega
      · simp
    · have hds := ihf (count + 1)
        (b.nextOverride.getD (b.delayFn b.attempt) :: ds)
        { b with attempt := b.attempt + 1, nextOverride := none } hf rfl
        (by show f = b.maxRetries - (b.attempt + 1); omega)
      rw [tryRespondGo_step breakOn action f count ds b _ _
        (Backoff.next_mid b hf h0 hlt)]
      rw [ha count]
      simp only [applyRules_internal, Bool.false_eq_true, if_false]
      rw [hds, ho]
      rw [List.range', List.map]
      congr 1
      · omega
      · simp [h0]

/-- C3 (amended): `_on_internal_server_error` returns `False`, so a 5xx
failure is suppressed and the loop proceeds to the next backoff permit: a
further attempt IS made after the normal backoff delay (first conjunct:
a 5xx followed by a success yields a second, successful attempt).  Only
after the whole retry budget is spent on 5xx failures does `try_respond`
give up, returning without propagating (second conjunct). -/
theorem c3_theorem :
    (∀ (breakOn : List ExcType) (b : Backoff) (action : Nat → Option Exc),
        action 0 = some Exc.internalServerError → action 1 = none →
        2 ≤ b.maxRetries →
        try_respond breakOn b action = .success 2 [0, b.delayFn 1]) ∧
    (∀ (breakOn : List ExcType) (b : Backoff) (action : Nat → Option Exc),
        (∀ k, action k = some Exc.internalServerError) →
        try_respond breakOn b action =
          .gaveUp b.maxRetries
            ((List.range b.maxRetries).map
              (fun i => if i = 0 then 0 else b.delayFn i))) := by
  constructor
  · intro breakOn b action h0 h1 hm
    unfold try_respond
    obtain ⟨k, hk⟩ : ∃ k, b.maxRetries = k + 2 := ⟨b.maxRetries - 2, by omega⟩
    rw [hk]
    rw [tryRespondGo_step breakOn action (k + 1) 0 [] (Backoff.reset b) 0 _
      (Backoff.next_fresh _ rfl rfl (by show 1 ≤ b.maxRetries; omega))]
    rw [h0]
    have hmid : Backoff.next { Backoff.reset b with attempt := 1 } =
        some (b.delayFn 1, { Backoff.reset b with attempt := 2 }) := by
      rw [Backoff.next_mid _ rfl Nat.one_ne_zero (by show 1 < b.maxRetries; omega)]
      rfl
    simp only [applyRules_internal, Bool.false_eq_true, if_false, Nat.zero_add]
    rw [tryRespondGo_step breakOn action k 1 [0] _ _ _ hmid]
    rw [h1]
    simp
  · intro breakOn b action ha
    have hds := tryRespondGo_ise breakOn action ha b.maxRetries 0 []
      (Backoff.reset b) rfl rfl (by show b.maxRetries = b.maxRetries - 0; omega)
    unfold try_respond
    rw [hds]
    congr 1
    · omega
    · rw [List.range_eq_range']
      rfl

/-- C3 witness: a 5xx on the first attempt is retried after the
configured one-second delay and the second attempt succeeds; a permanent
5xx exhausts all five permits and is then given up on without
propagating. -/
theorem c3_witness :
    try_respond [] backoff5 iseOnce = .success 2 [0, 1] ∧
    try_respond [] backoff5 iseAlways =
      .gaveUp 5 ((List.range 5).map (fun i => if i = 0 then 0 else (1 : ℚ))) :=
  ⟨c3_theorem.1 [] backoff5 iseOnce rfl rfl (by decide),
   c3_theorem.2 [] backoff5 iseAlways (fun k => rfl)⟩

/-- C3 counterexample: after the first attempt hits a 5xx, a second
attempt is made (and succeeds) — refuting "no further attempt of the
action is made; it never loops back into a retry on a 5xx". -/
theorem c3_counterexample :
    iseOnce 0 = some Exc.internalServerError ∧
    try_respond [] backoff5 iseOnce = .success 2 [0, 1] := by
  constructor
  · rfl
  · decide

/- ------------------------------------------------------------------ -/
/- C9                                                                  -/
/- ------------------------------------------------------------------ -/

/-- C9 (amended): an exception whose type is in the caller-supplied
break-on set — and is not matched first by the default
internal-server-error or rate-limited rules, which are registered before
it — hits `_on_break_on`: the backoff iterator is force-finished and the
exception suppressed, so `try_respond` returns after that single attempt
(no retry, even with permits remaining) and nothing propagates. -/
theorem c9_theorem :
    ∀ (breakOn : List ExcType) (b : Backoff) (action : Nat → Option Exc) (e : Exc),
      action 0 = some e → Exc.excType e ∈ breakOn →
      Exc.excType e ≠ ExcType.internalServerErrorType →
      Exc.excType e ≠ ExcType.rateLimitedType →
      1 ≤ b.maxRetries →
      try_respond breakOn b action = .gaveUp 1 [0] := by
  intro breakOn b action e h0 hmem hni hnr hm
  unfold try_respond
  obtain ⟨k, hk⟩ : ∃ k, b.maxRetries = k + 1 := ⟨b.maxRetries - 1, by omega⟩
  rw [hk]
  rw [tryRespondGo_step breakOn action k 0 [] (Backoff.reset b) 0 _
    (Backoff.next_fresh _ rfl rfl hm)]
  rw [h0]
  simp only [applyRules_break breakOn e _ hmem hni hnr, Bool.false_eq_true,
    if_false, Nat.zero_add]
  rw [tryRespondGo_finished breakOn action k 1 [0] _ rfl]
  rfl

/-- C9 witness: a tag-7 exception with break_on = {tag-7} is suppressed
after a single attempt although two more permits remained. -/
theorem c9_witness :
    try_respond [ExcType.otherType 7] backoff3 otherAlways7 = .gaveUp 1 [0] :=
  c9_theorem [ExcType.otherType 7] backoff3 otherAlways7 (Exc.otherExc 7)
    rfl (by decide) (by decide) (by decide) (by decide)

/-- C9 counterexample: with break_on containing the
internal-server-error type, a raised `InternalServerError` belongs to the
break-on set, yet the first-matching default rule handles it: the backoff
is not finished and the action is retried (two attempts are made before
exhaustion) — refuting "for every exception whose type belongs to the
break_on set, the iterator is force-finished and the exception neither
retried nor propagated". -/
theorem c9_counterexample :
    Exc.excType Exc.internalServerError ∈ [ExcType.internalServerErrorType] ∧
    try_respond [ExcType.internalServerErrorType] backoff2 iseAlways =
      .gaveUp 2 [0, 1] := by
  constructor
  · decide
  · decide
